import Mathlib

/-!
# Verification of the magnetometer-file utility set

Shallow embedding of the two source modules

  * `tutorial/utils/u02_parsing.py`   (file parsing, measurement classification,
    column normalisation), and
  * `tutorial_answers/utils/u03_oop.py` (DBSCAN-based nominal-value clustering,
    z-score outlier detection, temperature-turnaround detection)

together with proofs about them.  Conventions used throughout:

  * floating point numbers are idealised as exact rationals (`ℚ`);
  * a pandas `Series` of floats is a `List ℚ` indexed by position;
  * a pandas numeric column that may contain missing values (`NaN`) is a
    `List (Option ℚ)` with `none` for `NaN`;
  * Python's exception channel is an `Except String` result; code that raises
    nothing always returns `Except.ok`;
  * comparisons against a standard deviation `√v` are expressed by the
    equivalent exact comparison of squares (proved equivalent to the real
    `√`-formulation in `isOutlier_iff_real`), which keeps every definition
    executable over `ℚ`.
-/

namespace MagnetUtils

/-! ## Statistics primitives (pandas / numpy semantics)

`Series.mean` is `numpy.mean` / `pandas.Series.mean` (population mean),
`sampleVar` is the square of `pandas.Series.std()` (sample variance, `ddof=1`)
and `popVar` is the square of the scale used by `sklearn StandardScaler`
(population variance, `ddof=0`).  Division by zero in `ℚ` yields `0`, which
coincides with the NaN-propagation behaviour we need: a zero/undefined
variance makes every z-score comparison below come out `false`, exactly as
`NaN > threshold` is `False` in pandas. -/

def seriesMean (x : List ℚ) : ℚ := x.sum / (x.length : ℚ)

def sampleVar (x : List ℚ) : ℚ :=
  (x.map (fun v => (v - seriesMean x) ^ 2)).sum / ((x.length : ℚ) - 1)

def popVar (x : List ℚ) : ℚ :=
  (x.map (fun v => (v - seriesMean x) ^ 2)).sum / (x.length : ℚ)

/-! ## `find_outlier_indices` (u03_oop.py, lines 73–91)

```python
z_scores = (x - x.mean()) / x.std()
outliers = z_scores.abs() > threshold
return list(outliers[outliers].index)
```

`isOutlier` is the exact-arithmetic truth value of `abs((v - mean)/std) >
threshold` for one element `v`.  When the sample variance is zero (constant
series, or fewer than two samples) the division `0/0` produces `NaN` in
pandas and `NaN > threshold` is `False`; hence the first branch.  Otherwise
`std = √(sampleVar) > 0` and `|v - mean|/std > t` is equivalent to
`t < 0 ∨ t² · var < (v - mean)²` (see `isOutlier_iff_real`). -/

def isOutlier (x : List ℚ) (t : ℚ) (v : ℚ) : Bool :=
  if sampleVar x = 0 then false
  else if t < 0 then true
  else decide (t ^ 2 * sampleVar x < (v - seriesMean x) ^ 2)

def find_outlier_indices (x : List ℚ) (t : ℚ) : List ℕ :=
  (List.range x.length).filter (fun i => isOutlier x t (x.getD i 0))

/-! ## `find_temp_turnaround_point` (u03_oop.py, lines 94–120)

```python
outlier_indices = find_outlier_indices(df["Temperature (K)"].diff())
if len(outlier_indices) == 0:
    zero_point = abs(df["Temperature (K)"].iloc[20:-20].diff()).idxmin()
    return zero_point
else:
    return outlier_indices[0]
```

The dataframe argument is represented by its `"Temperature (K)"` column as a
`List ℚ` (the function touches nothing else; the column is assumed present
and numeric, which is what both claims presuppose).  `Series.diff()` puts a
`NaN` at the first label and `x[i] - x[i-1]` at label `i ≥ 1`; pandas'
`mean`/`std` skip that `NaN` and its own z-score is `NaN` (never an outlier),
so the outlier scan over the diff series is exactly a scan over `diffs temps`
with every reported position shifted up by one.  In the no-outlier branch,
`iloc[20:-20]` keeps labels `20 … n-21`; its `diff` is `NaN` at label `20`,
which `idxmin` skips, so the candidate labels are `21 … n-21` and `idxmin`
returns the first label attaining the minimal absolute difference.  When the
trimmed slice has fewer than two rows (`n < 42`) every candidate is `NaN` and
pandas `idxmin` raises; that failure is modeled as `none`. -/

def diffs (x : List ℚ) : List ℚ := List.zipWith (· - ·) x.tail x

def idxminAbsAux : List ℚ → Option (ℕ × ℚ)
  | [] => none
  | d :: ds =>
    match idxminAbsAux ds with
    | none => some (0, |d|)
    | some (j, m) => if |d| ≤ m then some (0, |d|) else some (j + 1, m)

/-- First position of the minimal absolute value (pandas `abs().idxmin()`,
which keeps the first occurrence on ties and raises — here `none` — on an
empty/all-NaN series). -/
def idxminAbs (ds : List ℚ) : Option ℕ := (idxminAbsAux ds).map Prod.fst

def find_temp_turnaround_point (temps : List ℚ) : Option ℕ :=
  match (find_outlier_indices (diffs temps) 3).map (· + 1) with
  | [] =>
    match idxminAbs (diffs ((temps.drop 20).take (temps.length - 40))) with
    | none => none
    | some k => some (k + 21)
  | i :: _ => some i

/-! ## `label_clusters` and `unique_values` (u03_oop.py, lines 7–70)

```python
reshaped_vals = vals.values.reshape(-1, 1)
scaler = StandardScaler()
reshaped_normalized_vals = scaler.fit_transform(reshaped_vals)
dbscan = DBSCAN(eps=eps, min_samples=min_samples)
cluster_labels = dbscan.fit_predict(reshaped_normalized_vals)
```

`StandardScaler` maps `v ↦ (v - μ)/σ` with the population deviation
`σ = √(popVar)`, replaced by `1` when the variance is zero
(`_handle_zeros_in_scale`).  DBSCAN only consumes pairwise distances
`|z_i - z_j| = |x_i - x_j|/σ`, so the neighborhood test `dist ≤ eps` is the
exact comparison `(x_i - x_j)² ≤ eps² · popVar` (or `≤ eps²` for a constant
series), valid for `eps ≥ 0`; a negative `eps` admits no neighbors.  The
labelling pass is sklearn's `dbscan_inner`: walk the points in index order;
an unlabelled core point opens a new cluster and is expanded depth-first,
each popped point is labelled if still unlabelled and, when core, pushes its
still-unlabelled neighbors.  The depth-first loop is written with a fuel
argument large enough ((n+1)²) never to run out; none of the properties
proved below depends on the exact fuel.  `sklearn` validates its input and
raises `ValueError` on an empty sample set (both `StandardScaler` and
`DBSCAN` require at least one sample), hence the `Option`: `none` is that
`ValueError`. -/

def isNeighbor (x : List ℚ) (eps : ℚ) (i j : ℕ) : Bool :=
  decide (0 ≤ eps) &&
    (if popVar x = 0 then decide ((x.getD i 0 - x.getD j 0) ^ 2 ≤ eps ^ 2)
     else decide ((x.getD i 0 - x.getD j 0) ^ 2 ≤ eps ^ 2 * popVar x))

def neighborhood (x : List ℚ) (eps : ℚ) (i : ℕ) : List ℕ :=
  (List.range x.length).filter (fun j => isNeighbor x eps i j)

def isCore (x : List ℚ) (eps : ℚ) (minPts : ℕ) (i : ℕ) : Bool :=
  minPts ≤ (neighborhood x eps i).length

def expandLoop (x : List ℚ) (eps : ℚ) (minPts : ℕ) (labNum : ℤ) :
    ℕ → ℕ → List ℕ → List ℤ → List ℤ
  | 0, _, _, labels => labels
  | fuel + 1, i, stack, labels =>
    let labels' := if labels.getD i 0 = -1 then labels.set i labNum else labels
    let stack' :=
      if labels.getD i 0 = -1 ∧ isCore x eps minPts i then
        ((neighborhood x eps i).filter (fun v => labels'.getD v 0 = -1)).reverse ++ stack
      else stack
    match stack' with
    | [] => labels'
    | v :: rest => expandLoop x eps minPts labNum fuel v rest labels'

def dbscanOuter (x : List ℚ) (eps : ℚ) (minPts : ℕ) :
    List ℕ → ℤ → List ℤ → List ℤ
  | [], _, labels => labels
  | i :: rest, labNum, labels =>
    if labels.getD i 0 ≠ -1 ∨ ¬ isCore x eps minPts i then
      dbscanOuter x eps minPts rest labNum labels
    else
      dbscanOuter x eps minPts rest (labNum + 1)
        (expandLoop x eps minPts labNum ((x.length + 1) * (x.length + 1)) i [] labels)

def label_clusters (x : List ℚ) (eps : ℚ) (minPts : ℕ) : Option (List ℤ) :=
  if x.isEmpty then none
  else some (dbscanOuter x eps minPts (List.range x.length) 0
    (List.replicate x.length (-1)))

/-! ### `unique_values`

```python
cluster_labels = label_clusters(x, eps=eps, min_samples=min_samples)
unique_values = []
for i in np.unique(cluster_labels):
    unique_val = np.mean(x[cluster_labels == i])
    unique_val = round(unique_val, 1)
    unique_values.append(unique_val)
return unique_values
```

`np.unique` is the sorted deduplication (`uniqueSorted`), `x[labels == i]`
the mask selection (`valuesWithLabel`), `np.mean` the population mean and
`round(·, 1)` rounding to one decimal with ties to even (`rnd1`). -/

def uniqueSorted (ls : List ℤ) : List ℤ := List.insertionSort (· ≤ ·) ls.dedup

def valuesWithLabel (x : List ℚ) (labels : List ℤ) (l : ℤ) : List ℚ :=
  ((x.zip labels).filter (fun p => p.2 = l)).map Prod.fst

/-- Round to one decimal place, ties to even (Python `round` on a float). -/
def rnd1 (q : ℚ) : ℚ :=
  let s := 10 * q
  let n : ℤ := ⌊s⌋
  let k : ℤ :=
    if s - (n : ℚ) < 1 / 2 then n
    else if (1 : ℚ) / 2 < s - (n : ℚ) then n + 1
    else if Even n then n else n + 1
  (k : ℚ) / 10

def unique_values (x : List ℚ) (eps : ℚ) (minPts : ℕ) : Option (List ℚ) :=
  (label_clusters x eps minPts).map (fun labels =>
    (uniqueSorted labels).map (fun l => rnd1 (seriesMean (valuesWithLabel x labels l))))

/-! ## `get_header` / `get_data` (u02_parsing.py, lines 6–25)

```python
def get_header(file_path):
    header = []
    with Path(file_path).open() as f:
        reader = csv.reader(f, delimiter="\t")
        for row in reader:
            header.append(row)
            if row[0] == "[Data]":
                break
    return header

def get_data(file_path):
    skip_rows = len(get_header(file_path))
    df = pd.read_csv(file_path, sep="\t", skiprows=skip_rows)
    if df.shape[1] == 1:
        df = pd.read_csv(file_path, skiprows=skip_rows)
    return df
```

A file is its list of lines (`List String`); one CSV row splits a line at a
delimiter character (`splitOnChar`; quoting, which none of the claims touch,
is not modelled, and under this splitter a row is never empty, so the
`row[0]` access always succeeds).  `pd.read_csv` takes the first remaining
line as the header row — the column count of the parsed table is that row's
field count (`ncols`) — and raises `EmptyDataError` when no line remains
after `skiprows`, the only parse failure this splitter semantics can
produce. -/

def splitOnChar (d : Char) : List Char → List (List Char)
  | [] => [[]]
  | c :: cs =>
    let r := splitOnChar d cs
    if c = d then [] :: r
    else (c :: r.headD []) :: r.tail

def rowFields (d : Char) (line : String) : List (List Char) := splitOnChar d line.toList

def get_header : List String → List (List (List Char))
  | [] => []
  | l :: ls =>
    let r := rowFields '\t' l
    if r.headD [] = "[Data]".toList then [r] else r :: get_header ls

def read_csv (d : Char) (lines : List String) (skip : ℕ) :
    Except String (List (List (List Char))) :=
  match lines.drop skip with
  | [] => Except.error "EmptyDataError"
  | ls => Except.ok (ls.map (rowFields d))

def ncols (t : List (List (List Char))) : ℕ := (t.headD []).length

def get_data (lines : List String) : Except String (List (List (List Char))) := do
  let skip := (get_header lines).length
  let df ← read_csv '\t' lines skip
  if ncols df = 1 then read_csv ',' lines skip else pure df

/-! ## `measurement_type` / `simplify_magnetic_df` (u02_parsing.py, lines 28–49)

A parsed dataframe is an association list of named columns; a column is a
list of cells, `none` being a missing value (`NaN`).  `df[name]` on a missing
column raises `KeyError` (`Except.error "KeyError"`); `notna().all()` is
`notnaAll`; `Series.min()` skips missing values and is `None`-like (`NaN`)
only when every cell is missing (`colMin`); subtracting the minimum from the
column propagates `NaN` cells (`subMin`).  Assigning the five new columns in
source order builds the output frame. -/

abbrev Col : Type := List (Option ℚ)

abbrev DFrame : Type := List (String × List (Option ℚ))

def getCol (df : DFrame) (c : String) : Except String (List (Option ℚ)) :=
  match List.find? (fun p => p.1 == c) df with
  | some p => Except.ok p.2
  | none => Except.error "KeyError"

def notnaAll (col : List (Option ℚ)) : Bool := col.all Option.isSome

def measurement_type (df : DFrame) : Except String String := do
  let m ← getCol df "Moment (emu)"
  if notnaAll m then pure "VSM"
  else do
    let d ← getCol df "DC Moment Free Ctr (emu)"
    if notnaAll d then pure "DC" else pure ""

def colMin (c : List (Option ℚ)) : Option ℚ := (c.filterMap id).min?

def subMin (c : List (Option ℚ)) : List (Option ℚ) :=
  match colMin c with
  | none => c.map (fun _ => (none : Option ℚ))
  | some m => c.map (fun v => v.map (fun q => q - m))

def simplify_magnetic_df (df : DFrame) : Except String DFrame := do
  let ts ← getCol df "Time Stamp (sec)"
  let d1 : DFrame := [("time", subMin ts)]
  let tc ← getCol df "Temperature (K)"
  let d2 := d1 ++ [("temp", tc)]
  let fc ← getCol df "Magnetic Field (Oe)"
  let d3 := d2 ++ [("field", fc)]
  let mt ← measurement_type df
  if mt = "VSM" then do
    let mo ← getCol df "Moment (emu)"
    let mer ← getCol df "M. Std. Err. (emu)"
    pure (d3 ++ [("moment", mo), ("moment_err", mer)])
  else if mt = "DC" then do
    let mo ← getCol df "DC Moment Free Ctr (emu)"
    let mer ← getCol df "DC Moment Err Free Ctr (emu)"
    pure (d3 ++ [("moment", mo), ("moment_err", mer)])
  else pure d3

/-! ## Frame effect of `simplify_magnetic_df`

The source performs only reads on its argument `df` — column selection,
`min()`, `notna().all()` — and every write targets the freshly created
`new_df` (there is no in-place pandas operation and no assignment into
`df`).  To state this as a theorem rather than a convention, the function is
re-translated in state-passing style: every primitive dataframe access takes
the current table object and returns it alongside its result
(`readColSt`), and the translation threads that state through the calls in
source order — including through the nested `measurement_type(df)` call.
The frame theorem then says the final state of the argument table is the
table that was passed in, and that the state-passing translation computes
the same result as the direct one. -/

def readColSt (df : DFrame) (c : String) : DFrame × Except String (List (Option ℚ)) :=
  (df, getCol df c)

def measurement_type_st (df0 : DFrame) : DFrame × Except String String :=
  let r1 := readColSt df0 "Moment (emu)"
  match r1.2 with
  | Except.error e => (r1.1, Except.error e)
  | Except.ok m =>
    if notnaAll m then (r1.1, Except.ok "VSM")
    else
      let r2 := readColSt r1.1 "DC Moment Free Ctr (emu)"
      match r2.2 with
      | Except.error e => (r2.1, Except.error e)
      | Except.ok d => (r2.1, Except.ok (if notnaAll d then "DC" else ""))

def simplify_magnetic_df_st (df0 : DFrame) : DFrame × Except String DFrame :=
  let r1 := readColSt df0 "Time Stamp (sec)"
  match r1.2 with
  | Except.error e => (r1.1, Except.error e)
  | Except.ok ts =>
    let d1 : DFrame := [("time", subMin ts)]
    let r2 := readColSt r1.1 "Temperature (K)"
    match r2.2 with
    | Except.error e => (r2.1, Except.error e)
    | Except.ok tc =>
      let d2 := d1 ++ [("temp", tc)]
      let r3 := readColSt r2.1 "Magnetic Field (Oe)"
      match r3.2 with
      | Except.error e => (r3.1, Except.error e)
      | Except.ok fc =>
        let d3 := d2 ++ [("field", fc)]
        let r4 := measurement_type_st r3.1
        match r4.2 with
        | Except.error e => (r4.1, Except.error e)
        | Except.ok mt =>
          if mt = "VSM" then
            let r5 := readColSt r4.1 "Moment (emu)"
            match r5.2 with
            | Except.error e => (r5.1, Except.error e)
            | Except.ok mo =>
              let r6 := readColSt r5.1 "M. Std. Err. (emu)"
              match r6.2 with
              | Except.error e => (r6.1, Except.error e)
              | Except.ok mer =>
                (r6.1, Except.ok (d3 ++ [("moment", mo), ("moment_err", mer)]))
          else if mt = "DC" then
            let r5 := readColSt r4.1 "DC Moment Free Ctr (emu)"
            match r5.2 with
            | Except.error e => (r5.1, Except.error e)
            | Except.ok mo =>
              let r6 := readColSt r5.1 "DC Moment Err Free Ctr (emu)"
              match r6.2 with
              | Except.error e => (r6.1, Except.error e)
              | Except.ok mer =>
                (r6.1, Except.ok (d3 ++ [("moment", mo), ("moment_err", mer)]))
          else (r4.1, Except.ok d3)

/-! ## Properties and proofs -/

theorem sampleVar_nonneg (x : List ℚ) : 0 ≤ sampleVar x := by
  unfold sampleVar
  match x with
  | [] => simp
  | a :: l =>
    apply div_nonneg
    · exact List.sum_nonneg (by intro q hq; obtain ⟨v, _, rfl⟩ := List.mem_map.1 hq; positivity)
    · have : (1 : ℚ) ≤ ((a :: l).length : ℚ) := by exact_mod_cast Nat.succ_le_of_lt (by simp)
      linarith

/-- Equivalence of the executable square-comparison with the real-number
z-score formulation `|v - mean| / √var > t` (with a zero variance treated as
"no outlier", matching pandas' NaN semantics). -/
theorem isOutlier_iff_real (x : List ℚ) (t v : ℚ) :
    isOutlier x t v = true ↔
      sampleVar x ≠ 0 ∧
        (t : ℝ) < |(v : ℝ) - (seriesMean x : ℝ)| / Real.sqrt ((sampleVar x : ℚ) : ℝ) := by
  unfold isOutlier
  by_cases hv : sampleVar x = 0
  · simp [hv]
  · have hvpos : (0 : ℝ) < ((sampleVar x : ℚ) : ℝ) := by
      have h0 : (0 : ℚ) ≤ sampleVar x := sampleVar_nonneg x
      have : (0 : ℚ) < sampleVar x := lt_of_le_of_ne h0 (Ne.symm hv)
      exact_mod_cast this
    have hs : (0 : ℝ) < Real.sqrt ((sampleVar x : ℚ) : ℝ) := Real.sqrt_pos.2 hvpos
    have hsq : Real.sqrt ((sampleVar x : ℚ) : ℝ) ^ 2 = ((sampleVar x : ℚ) : ℝ) :=
      Real.sq_sqrt hvpos.le
    rw [lt_div_iff₀ hs]
    by_cases ht : t < 0
    · simp only [hv, if_false, ht, if_true, true_iff]
      refine ⟨hv, ?_⟩
      have h1 : ((t : ℝ)) * Real.sqrt ((sampleVar x : ℚ) : ℝ) < 0 := by
        apply mul_neg_of_neg_of_pos _ hs
        exact_mod_cast ht
      exact lt_of_lt_of_le h1 (abs_nonneg _)
    · push_neg at ht
      have htr : (0 : ℝ) ≤ (t : ℝ) := by exact_mod_cast ht
      simp only [hv, if_false, ht.not_lt, if_false, decide_eq_true_eq, ne_eq,
        not_false_iff, true_and]
      constructor
      · intro h
        have hR : ((t : ℝ)) ^ 2 * ((sampleVar x : ℚ) : ℝ) <
            ((v : ℝ) - (seriesMean x : ℝ)) ^ 2 := by
          exact_mod_cast h
        nlinarith [hsq, sq_abs ((v : ℝ) - (seriesMean x : ℝ)),
          abs_nonneg ((v : ℝ) - (seriesMean x : ℝ)), mul_nonneg htr hs.le, hR,
          sq_nonneg ((t : ℝ) * Real.sqrt ((sampleVar x : ℚ) : ℝ) +
            |(v : ℝ) - (seriesMean x : ℝ)|)]
      · intro h
        have hR : ((t : ℝ)) ^ 2 * ((sampleVar x : ℚ) : ℝ) <
            ((v : ℝ) - (seriesMean x : ℝ)) ^ 2 := by
          nlinarith [hsq, sq_abs ((v : ℝ) - (seriesMean x : ℝ)),
            abs_nonneg ((v : ℝ) - (seriesMean x : ℝ)), mul_nonneg htr hs.le, h]
        have hQ : (t : ℚ) ^ 2 * sampleVar x < (v - seriesMean x) ^ 2 := by
          have := hR
          push_cast at this
          exact_mod_cast this
        exact hQ

/-- The filtered index list is strictly ascending (shared helper). -/
theorem find_outlier_indices_pairwise (x : List ℚ) (t : ℚ) :
    List.Pairwise (· < ·) (find_outlier_indices x t) :=
  (List.pairwise_lt_range _).filter _

/-- C3: `find_outlier_indices` returns exactly the positions whose absolute
real z-score (computed from the series' own mean and standard deviation)
exceeds the threshold, in strictly ascending order. -/
theorem find_outlier_indices_spec (x : List ℚ) (t : ℚ) :
    List.Pairwise (· < ·) (find_outlier_indices x t) ∧
      ∀ i : ℕ, i ∈ find_outlier_indices x t ↔
        i < x.length ∧ sampleVar x ≠ 0 ∧
          (t : ℝ) < |(x.getD i 0 : ℝ) - (seriesMean x : ℝ)| /
            Real.sqrt ((sampleVar x : ℚ) : ℝ) := by
  constructor
  · exact find_outlier_indices_pairwise x t
  · intro i
    unfold find_outlier_indices
    rw [List.mem_filter, List.mem_range, isOutlier_iff_real]

/-- C4: on a constant series the sample variance is zero, so no index is
reported as an outlier (the NaN z-scores never flag anything), and the
function returns the empty list rather than failing. -/
theorem find_outlier_indices_const (x : List ℚ) (c : ℚ) (t : ℚ)
    (h : ∀ a ∈ x, a = c) : find_outlier_indices x t = [] := by
  have hvar : sampleVar x = 0 := by
    unfold sampleVar
    match x, h with
    | [], _ => simp
    | a :: l, h =>
      have hlen : (((a :: l).length : ℚ)) ≠ 0 := Nat.cast_ne_zero.2 (by simp)
      have hmean : seriesMean (a :: l) = c := by
        unfold seriesMean
        rw [List.sum_eq_card_nsmul (a :: l) c h, nsmul_eq_mul, mul_comm,
          mul_div_assoc, div_self hlen, mul_one]
      have : ((a :: l).map (fun v => (v - seriesMean (a :: l)) ^ 2)).sum = 0 := by
        apply List.sum_eq_zero
        intro q hq
        obtain ⟨v, hvmem, rfl⟩ := List.mem_map.1 hq
        rw [hmean, h v hvmem]
        ring
      rw [this]
      simp
  unfold find_outlier_indices
  apply List.filter_eq_nil_iff.2
  intro i _
  unfold isOutlier
  simp [hvar]

/-- Witness for `find_outlier_indices_const`: the constant series
`[5, 5, 5, 5]` with threshold `1` yields no outliers. -/
theorem find_outlier_indices_const_witness :
    (∀ a ∈ [(5 : ℚ), 5, 5, 5], a = 5) ∧ find_outlier_indices [(5 : ℚ), 5, 5, 5] 1 = [] :=
  ⟨by decide, find_outlier_indices_const [(5 : ℚ), 5, 5, 5] 5 1 (by decide)⟩

theorem diffs_length (x : List ℚ) : (diffs x).length = x.length - 1 := by
  unfold diffs
  rw [List.length_zipWith, List.length_tail]
  omega

theorem diffs_getD (x : List ℚ) (k : ℕ) (h : k < (diffs x).length) :
    (diffs x).getD k 0 = x.getD (k + 1) 0 - x.getD k 0 := by
  have hlen : k + 1 < x.length := by
    have := diffs_length x
    omega
  have h1 : k < x.tail.length := by
    rw [List.length_tail]; omega
  have h2 : k < x.length := by omega
  rw [List.getD_eq_getElem _ _ h, List.getD_eq_getElem _ _ hlen, List.getD_eq_getElem _ _ h2]
  simp only [diffs]
  rw [List.getElem_zipWith, List.getElem_tail]

theorem idxminAbsAux_spec (ds : List ℚ) (j : ℕ) (m : ℚ)
    (h : idxminAbsAux ds = some (j, m)) :
    j < ds.length ∧ |ds.getD j 0| = m ∧ ∀ i < ds.length, m ≤ |ds.getD i 0| := by
  induction ds generalizing j m with
  | nil => simp [idxminAbsAux] at h
  | cons d ds ih =>
    rw [idxminAbsAux] at h
    cases hrec : idxminAbsAux ds with
    | none =>
      rw [hrec] at h
      dsimp only at h
      have hnil : ds = [] := by
        cases ds with
        | nil => rfl
        | cons e es =>
          rw [idxminAbsAux] at hrec
          cases h' : idxminAbsAux es <;> rw [h'] at hrec <;> dsimp only at hrec
          · simp at hrec
          · split at hrec <;> simp at hrec
      subst hnil
      simp at h
      obtain ⟨rfl, rfl⟩ := h
      refine ⟨by simp, by simp, ?_⟩
      intro i hi
      have hi0 : i = 0 := by simp at hi; omega
      subst hi0
      simp
    | some p =>
      obtain ⟨j', m'⟩ := p
      rw [hrec] at h
      dsimp only at h
      obtain ⟨hj', hm', hmin'⟩ := ih j' m' hrec
      by_cases hd : |d| ≤ m'
      · rw [if_pos hd] at h
        simp at h
        obtain ⟨rfl, rfl⟩ := h
        refine ⟨by simp, by simp, ?_⟩
        intro i hi
        match i with
        | 0 => simp
        | Nat.succ i' =>
          have : i' < ds.length := by simpa using hi
          calc |d| ≤ m' := hd
            _ ≤ |ds.getD i' 0| := hmin' i' this
            _ = |(d :: ds).getD (i' + 1) 0| := by simp
      · rw [if_neg hd] at h
        simp at h
        obtain ⟨rfl, rfl⟩ := h
        refine ⟨by simpa using hj', by simpa using hm', ?_⟩
        intro i hi
        match i with
        | 0 =>
          simp
          exact le_of_lt (lt_of_not_le hd)
        | Nat.succ i' =>
          have : i' < ds.length := by simpa using hi
          simpa using hmin' i' this

theorem idxminAbsAux_isSome (ds : List ℚ) (h : ds ≠ []) :
    ∃ j m, idxminAbsAux ds = some (j, m) := by
  cases ds with
  | nil => exact absurd rfl h
  | cons d ds =>
    cases h' : idxminAbsAux ds with
    | none => exact ⟨0, |d|, by simp [idxminAbsAux, h']⟩
    | some p =>
      obtain ⟨j', m'⟩ := p
      by_cases hd : |d| ≤ m'
      · exact ⟨0, |d|, by simp [idxminAbsAux, h', hd]⟩
      · exact ⟨j' + 1, m', by simp [idxminAbsAux, h', hd]⟩

theorem slice_getD (x : List ℚ) (i : ℕ) (hi : i < ((x.drop 20).take (x.length - 40)).length) :
    ((x.drop 20).take (x.length - 40)).getD i 0 = x.getD (i + 20) 0 := by
  have hlen : ((x.drop 20).take (x.length - 40)).length = min (x.length - 40) (x.length - 20) := by
    rw [List.length_take, List.length_drop]
  have hix : i + 20 < x.length := by omega
  have hidrop : i < (x.drop 20).length := by rw [List.length_drop]; omega
  have hitake : i < (x.length - 40) := by omega
  rw [List.getD_eq_getElem _ _ hi, List.getD_eq_getElem _ _ hix]
  rw [List.getElem_take, List.getElem_drop]
  congr 1
  omega

/-- C1: when the z-score scan (threshold 3) over the successive temperature
differences reports at least one outlier, the turnaround point is the first
reported outlier label, which is the smallest of all reported labels. -/
theorem find_turnaround_outlier_branch (temps : List ℚ)
    (h : find_outlier_indices (diffs temps) 3 ≠ []) :
    ∃ m, find_temp_turnaround_point temps = some m ∧
      m ∈ (find_outlier_indices (diffs temps) 3).map (· + 1) ∧
      ∀ j ∈ (find_outlier_indices (diffs temps) 3).map (· + 1), m ≤ j := by
  cases hl : find_outlier_indices (diffs temps) 3 with
  | nil => exact absurd hl h
  | cons a rest =>
    refine ⟨a + 1, ?_, ?_, ?_⟩
    · unfold find_temp_turnaround_point
      rw [hl]
      rfl
    · simp
    · intro j hj
      simp only [List.map_cons, List.mem_cons, List.mem_map] at hj
      rcases hj with rfl | ⟨b, hb, rfl⟩
      · exact le_refl _
      · have hpair := find_outlier_indices_pairwise (diffs temps) 3
        rw [hl] at hpair
        have : a < b := (List.pairwise_cons.1 hpair).1 b hb
        omega

/-- C2 (amended): when the z-score scan over the successive temperature
differences reports no outlier and the series has at least 42 samples (so
that the trimmed slice `iloc[20:-20]` contains at least two rows), the
turnaround point is a label `j` with `20 ≤ j < len - 20` whose absolute
successive difference is minimal among all candidate labels
`21 ≤ k < len - 20` of the trimmed range. -/
theorem find_turnaround_no_outlier_branch (temps : List ℚ)
    (hout : find_outlier_indices (diffs temps) 3 = [])
    (hlen : 42 ≤ temps.length) :
    ∃ j, find_temp_turnaround_point temps = some j ∧
      20 ≤ j ∧ j + 20 < temps.length ∧
      ∀ k, 21 ≤ k → k + 20 < temps.length →
        |temps.getD j 0 - temps.getD (j - 1) 0| ≤
          |temps.getD k 0 - temps.getD (k - 1) 0| := by
  set sl := (temps.drop 20).take (temps.length - 40) with hsl
  have hsllen : sl.length = temps.length - 40 := by
    rw [hsl, List.length_take, List.length_drop]
    omega
  have hdlen : (diffs sl).length = temps.length - 41 := by
    rw [diffs_length, hsllen]
    omega
  have hdne : diffs sl ≠ [] := by
    intro habs
    rw [habs] at hdlen
    simp at hdlen
    omega
  obtain ⟨k₀, m, haux⟩ := idxminAbsAux_isSome _ hdne
  obtain ⟨hk₀, hm, hmin⟩ := idxminAbsAux_spec _ _ _ haux
  have hds : ∀ i, i < (diffs sl).length →
      (diffs sl).getD i 0 = temps.getD (i + 21) 0 - temps.getD (i + 20) 0 := by
    intro i hi
    rw [diffs_getD sl i hi]
    have hi1 : i + 1 < sl.length := by
      rw [hsllen]; rw [hdlen] at hi; omega
    have hi0 : i < sl.length := by omega
    rw [slice_getD temps (i + 1) (by rw [hsllen] at hi1 ⊢; omega),
      slice_getD temps i (by rw [hsllen] at hi0 ⊢; omega)]
  refine ⟨k₀ + 21, ?_, by omega, by rw [hdlen] at hk₀; omega, ?_⟩
  · unfold find_temp_turnaround_point
    rw [hout]
    simp only [List.map_nil]
    rw [idxminAbs, ← hsl, haux]
    rfl
  · intro k hk1 hk2
    have hkpos : k - 21 < (diffs sl).length := by rw [hdlen]; omega
    have h1 : (diffs sl).getD (k - 21) 0 = temps.getD k 0 - temps.getD (k - 1) 0 := by
      rw [hds _ hkpos]
      congr 2 <;> omega
    have h2 : (diffs sl).getD k₀ 0 = temps.getD (k₀ + 21) 0 - temps.getD (k₀ + 21 - 1) 0 := by
      rw [hds _ hk₀]
      congr 2
    calc |temps.getD (k₀ + 21) 0 - temps.getD (k₀ + 21 - 1) 0|
        = |(diffs sl).getD k₀ 0| := by rw [h2]
      _ = m := hm
      _ ≤ |(diffs sl).getD (k - 21) 0| := hmin _ hkpos
      _ = |temps.getD k 0 - temps.getD (k - 1) 0| := by rw [h1]

/-- Witness for `find_turnaround_outlier_branch`: a temperature ramp
`10 … 20` followed by a reset to `5`.  The reset difference is the only
z-score outlier of the diff series, at pandas label `11`, and the turnaround
point is `11`. -/
theorem find_turnaround_outlier_branch_witness :
    find_outlier_indices (diffs [(10 : ℚ), 11, 12, 13, 14, 15, 16, 17, 18, 19, 20, 5]) 3 ≠ [] ∧
      ∃ m, find_temp_turnaround_point [(10 : ℚ), 11, 12, 13, 14, 15, 16, 17, 18, 19, 20, 5] =
          some m ∧
        m ∈ (find_outlier_indices
          (diffs [(10 : ℚ), 11, 12, 13, 14, 15, 16, 17, 18, 19, 20, 5]) 3).map (· + 1) ∧
        ∀ j ∈ (find_outlier_indices
          (diffs [(10 : ℚ), 11, 12, 13, 14, 15, 16, 17, 18, 19, 20, 5]) 3).map (· + 1), m ≤ j :=
  ⟨by with_unfolding_all decide, find_turnaround_outlier_branch _ (by with_unfolding_all decide)⟩

set_option maxRecDepth 40000 in
/-- Witness for `find_turnaround_no_outlier_branch` at a 43-sample constant
series (all diffs zero, hence no outliers): the returned label is inside the
trimmed range and minimizes the absolute successive difference there. -/
theorem find_turnaround_no_outlier_branch_witness :
    find_outlier_indices (diffs (List.replicate 43 (5 : ℚ))) 3 = [] ∧
      42 ≤ (List.replicate 43 (5 : ℚ)).length ∧
      ∃ j, find_temp_turnaround_point (List.replicate 43 (5 : ℚ)) = some j ∧
        20 ≤ j ∧ j + 20 < (List.replicate 43 (5 : ℚ)).length ∧
        ∀ k, 21 ≤ k → k + 20 < (List.replicate 43 (5 : ℚ)).length →
          |(List.replicate 43 (5 : ℚ)).getD j 0 - (List.replicate 43 (5 : ℚ)).getD (j - 1) 0| ≤
            |(List.replicate 43 (5 : ℚ)).getD k 0 - (List.replicate 43 (5 : ℚ)).getD (k - 1) 0| :=
  ⟨by with_unfolding_all decide, by decide, find_turnaround_no_outlier_branch _ (by with_unfolding_all decide) (by decide)⟩

/-- Counterexample to C2 as stated: on the 5-sample constant temperature
series the outlier scan over the diffs finds nothing, yet the no-outlier
branch returns no index at all — `iloc[20:-20]` is empty, so pandas `idxmin`
raises (modeled as `none`) instead of returning an index in the (empty)
trimmed range `[20, len-20)`. -/
theorem find_turnaround_short_series_fails :
    find_outlier_indices (diffs [(1 : ℚ), 1, 1, 1, 1]) 3 = [] ∧
      find_temp_turnaround_point [(1 : ℚ), 1, 1, 1, 1] = none := by
  with_unfolding_all decide

theorem expandLoop_ge (x : List ℚ) (eps : ℚ) (minPts : ℕ) (labNum : ℤ)
    (fuel : ℕ) (i : ℕ) (stack : List ℕ) (labels : List ℤ)
    (hlab : ∀ l ∈ labels, -1 ≤ l) (hnum : -1 ≤ labNum) :
    ∀ l ∈ expandLoop x eps minPts labNum fuel i stack labels, -1 ≤ l := by
  induction fuel generalizing i stack labels with
  | zero => exact hlab
  | succ fuel ih =>
    rw [expandLoop]
    have hlab' : ∀ l ∈ (if labels.getD i 0 = -1 then labels.set i labNum else labels),
        -1 ≤ l := by
      split
      · intro l hl
        rcases List.mem_or_eq_of_mem_set hl with h' | rfl
        · exact hlab l h'
        · exact hnum
      · exact hlab
    split
    · exact hlab'
    · exact ih _ _ _ hlab'

theorem dbscanOuter_ge (x : List ℚ) (eps : ℚ) (minPts : ℕ)
    (idxs : List ℕ) (labNum : ℤ) (labels : List ℤ)
    (hlab : ∀ l ∈ labels, -1 ≤ l) (hnum : 0 ≤ labNum) :
    ∀ l ∈ dbscanOuter x eps minPts idxs labNum labels, -1 ≤ l := by
  induction idxs generalizing labNum labels with
  | nil => exact hlab
  | cons i rest ih =>
    rw [dbscanOuter]
    split
    · exact ih _ _ hlab hnum
    · exact ih _ _ (expandLoop_ge _ _ _ _ _ _ _ _ hlab (by omega)) (by omega)

theorem label_clusters_ge (x : List ℚ) (eps : ℚ) (minPts : ℕ) (labels : List ℤ)
    (h : label_clusters x eps minPts = some labels) : ∀ l ∈ labels, -1 ≤ l := by
  unfold label_clusters at h
  split at h
  · exact absurd h (by simp)
  · have := Option.some.inj h
    subst this
    exact dbscanOuter_ge _ _ _ _ _ _ (by intro l hl; rw [List.eq_of_mem_replicate hl]) le_rfl

theorem uniqueSorted_mem (ls : List ℤ) (l : ℤ) : l ∈ uniqueSorted ls ↔ l ∈ ls := by
  unfold uniqueSorted
  rw [(List.perm_insertionSort (· ≤ ·) ls.dedup).mem_iff, List.mem_dedup]

theorem uniqueSorted_sorted_lt (ls : List ℤ) : List.Sorted (· < ·) (uniqueSorted ls) := by
  have hs : List.Sorted (· ≤ ·) (uniqueSorted ls) := List.sorted_insertionSort _ _
  have hn : (uniqueSorted ls).Nodup :=
    (List.perm_insertionSort (· ≤ ·) ls.dedup).nodup_iff.2 ls.nodup_dedup
  exact hs.lt_of_le hn

/-- C5 (amended): for every series on which clustering runs (sklearn raises
on an empty input), `unique_values` returns exactly one entry per distinct
produced label — the noise label `-1` included — namely the rounded mean of
the original-scale values carrying that label, listed in the sorted order of
the distinct labels, with `-1` first whenever any point is noise. -/
theorem unique_values_spec (x : List ℚ) (eps : ℚ) (minPts : ℕ) (labels : List ℤ)
    (h : label_clusters x eps minPts = some labels) :
    unique_values x eps minPts =
        some ((uniqueSorted labels).map
          (fun l => rnd1 (seriesMean (valuesWithLabel x labels l)))) ∧
      List.Sorted (· < ·) (uniqueSorted labels) ∧
      (∀ l : ℤ, l ∈ uniqueSorted labels ↔ l ∈ labels) ∧
      ((-1 : ℤ) ∈ labels → (uniqueSorted labels).head? = some (-1)) := by
  refine ⟨by rw [unique_values, h, Option.map_some'], uniqueSorted_sorted_lt labels,
    fun l => uniqueSorted_mem labels l, ?_⟩
  intro hmem
  have hmem' : (-1 : ℤ) ∈ uniqueSorted labels := (uniqueSorted_mem labels _).2 hmem
  obtain ⟨a, t, hat⟩ : ∃ a t, uniqueSorted labels = a :: t := by
    cases hu : uniqueSorted labels with
    | nil => rw [hu] at hmem'; exact absurd hmem' (List.not_mem_nil _)
    | cons a t => exact ⟨a, t, rfl⟩
  rw [hat]
  have hsorted := uniqueSorted_sorted_lt labels
  rw [hat] at hsorted hmem'
  have ha1 : a ≤ -1 := by
    rcases List.mem_cons.1 hmem' with rfl | hmt
    · exact le_rfl
    · exact le_of_lt ((List.pairwise_cons.1 hsorted).1 _ hmt)
  have ha2 : -1 ≤ a := by
    have : a ∈ labels := (uniqueSorted_mem labels a).1 (by rw [hat]; simp)
    exact label_clusters_ge x eps minPts labels h a this
  have : a = -1 := le_antisymm ha1 ha2
  rw [this, List.head?_cons]

/-- Counterexample to C5 as stated: on the empty series `unique_values`
returns nothing at all (sklearn's `StandardScaler`/`DBSCAN` raise
`ValueError` on zero samples), rather than the empty list of per-label
means. -/
theorem unique_values_empty_fails : unique_values ([] : List ℚ) 1 1 = none := rfl

theorem dbscanOuter_no_core (x : List ℚ) (eps : ℚ) (minPts : ℕ)
    (idxs : List ℕ) (labNum : ℤ) (labels : List ℤ)
    (hnc : ∀ i, isCore x eps minPts i = false) :
    dbscanOuter x eps minPts idxs labNum labels = labels := by
  induction idxs generalizing labNum with
  | nil => rfl
  | cons i rest ih =>
    rw [dbscanOuter]
    rw [if_pos (Or.inr (by rw [hnc i]; simp))]
    exact ih _

theorem valuesWithLabel_all_noise (x : List ℚ) :
    valuesWithLabel x (List.replicate x.length (-1)) (-1) = x := by
  unfold valuesWithLabel
  induction x with
  | nil => rfl
  | cons a t ih =>
    simp only [List.length_cons, List.replicate_succ, List.zip_cons_cons, List.filter_cons]
    rw [if_pos (by simp)]
    simpa using ih

/-- C6 (amended): on a non-empty series with fewer samples than
`min_samples` no point can be core, so DBSCAN labels every point `-1`
(all noise) and `unique_values` returns the single entry obtained from the
whole series, without raising.  (An *empty* series, by contrast, makes
sklearn raise — see `label_clusters_empty_fails`.) -/
theorem label_clusters_degenerate (x : List ℚ) (eps : ℚ) (minPts : ℕ)
    (h1 : x ≠ []) (h2 : x.length < minPts) :
    label_clusters x eps minPts = some (List.replicate x.length (-1)) ∧
      unique_values x eps minPts = some [rnd1 (seriesMean x)] := by
  have hnc : ∀ i, isCore x eps minPts i = false := by
    intro i
    unfold isCore
    have hle : (neighborhood x eps i).length ≤ x.length := by
      unfold neighborhood
      calc ((List.range x.length).filter (fun j => isNeighbor x eps i j)).length
          ≤ (List.range x.length).length := List.length_filter_le _ _
        _ = x.length := List.length_range _
    simp only [decide_eq_false_iff_not]
    omega
  have hlab : label_clusters x eps minPts = some (List.replicate x.length (-1)) := by
    unfold label_clusters
    rw [if_neg (by simpa using h1)]
    rw [dbscanOuter_no_core x eps minPts _ _ _ hnc]
  refine ⟨hlab, ?_⟩
  rw [unique_values, hlab, Option.map_some']
  have hn : ∃ n, x.length = n + 1 := by
    cases x with
    | nil => exact absurd rfl h1
    | cons a t => exact ⟨t.length, rfl⟩
  obtain ⟨n, hxn⟩ := hn
  have hdedup : ∀ k : ℕ, (List.replicate (k + 1) (-1 : ℤ)).dedup = [-1] := by
    intro k
    induction k with
    | zero => rfl
    | succ k ihk =>
      rw [List.replicate_succ,
        List.dedup_cons_of_mem (by exact List.mem_replicate.2 ⟨by omega, rfl⟩), ihk]
  have huniq : uniqueSorted (List.replicate x.length (-1)) = [-1] := by
    unfold uniqueSorted
    rw [hxn, hdedup n]
    rfl
  rw [huniq, List.map_singleton, valuesWithLabel_all_noise]

/-- Witness for `label_clusters_degenerate`: five samples with
`min_samples = 10` are all labelled noise and produce a single nominal
value. -/
theorem label_clusters_degenerate_witness :
    [(1 : ℚ), 2, 3, 4, 5] ≠ [] ∧ [(1 : ℚ), 2, 3, 4, 5].length < 10 ∧
      (label_clusters [(1 : ℚ), 2, 3, 4, 5] (1 / 1000) 10 =
          some (List.replicate [(1 : ℚ), 2, 3, 4, 5].length (-1)) ∧
        unique_values [(1 : ℚ), 2, 3, 4, 5] (1 / 1000) 10 =
          some [rnd1 (seriesMean [(1 : ℚ), 2, 3, 4, 5])]) :=
  ⟨by decide, by decide, label_clusters_degenerate _ _ _ (by decide) (by decide)⟩

/-- Counterexample to C6 as stated: the empty series is not "valid output
with no entries" — sklearn raises `ValueError` before any labelling happens,
so `label_clusters` and `unique_values` both fail (return `none`). -/
theorem label_clusters_empty_fails :
    label_clusters ([] : List ℚ) (1 / 1000) 10 = none ∧
      unique_values ([] : List ℚ) (1 / 1000) 10 = none := ⟨rfl, rfl⟩

/-- Witness for `unique_values_spec` at the concrete series `[0, 0, 0]` with
`eps = 1/2`, `min_samples = 2`: one cluster labelled `0`. -/
theorem unique_values_spec_witness :
    label_clusters [(0 : ℚ), 0, 0] (1 / 2) 2 = some [0, 0, 0] ∧
      (unique_values [(0 : ℚ), 0, 0] (1 / 2) 2 =
          some ((uniqueSorted [0, 0, 0]).map
            (fun l => rnd1 (seriesMean (valuesWithLabel [(0 : ℚ), 0, 0] [0, 0, 0] l)))) ∧
        List.Sorted (· < ·) (uniqueSorted [0, 0, 0]) ∧
        (∀ l : ℤ, l ∈ uniqueSorted [0, 0, 0] ↔ l ∈ [(0 : ℤ), 0, 0]) ∧
        ((-1 : ℤ) ∈ [(0 : ℤ), 0, 0] → (uniqueSorted [0, 0, 0]).head? = some (-1))) :=
  ⟨by with_unfolding_all decide, unique_values_spec _ _ _ _ (by with_unfolding_all decide)⟩

theorem exceptBindOk {α β : Type} (a : α) (f : α → Except String β) :
    (Except.ok a >>= f : Except String β) = f a := rfl

theorem exceptBindErr {α β : Type} (e : String) (f : α → Except String β) :
    ((Except.error e : Except String α) >>= f : Except String β) = Except.error e := rfl

theorem exceptPure {α : Type} (a : α) : (pure a : Except String α) = Except.ok a := rfl

/-- C7 (amended): when the tab-delimited parse of the data section yields a
table with exactly one column, `get_data` retries the same file with the
default delimiter; the second attempt's result is returned unconditionally —
there is no multi-column check on it and no ParseError. -/
theorem get_data_fallback (lines : List String) (t1 : List (List (List Char)))
    (h : read_csv '\t' lines (get_header lines).length = Except.ok t1) :
    (ncols t1 = 1 → get_data lines = read_csv ',' lines (get_header lines).length) ∧
      (ncols t1 ≠ 1 → get_data lines = Except.ok t1) := by
  constructor
  · intro hc
    simp [get_data, h, hc, exceptBindOk]
  · intro hc
    simp [get_data, h, hc, exceptBindOk, exceptPure]

/-- Counterexample to C7's ParseError clause: a file whose data section is a
single column under both the tab parse and the comma retry.  `get_data`
returns the one-column table of the second attempt instead of failing. -/
theorem get_data_single_column_no_error :
    get_data ["[Data]", "a", "b"] = Except.ok [[['a']], [['b']]] ∧
      ncols [[['a']], [['b']]] = 1 := ⟨rfl, rfl⟩

/-- Witness for `get_data_fallback`: two tab-separated columns, so the first
parse is kept. -/
theorem get_data_fallback_witness :
    read_csv '\t' ["[Data]", "a\tb", "c\td"]
        (get_header ["[Data]", "a\tb", "c\td"]).length =
      Except.ok [[['a'], ['b']], [['c'], ['d']]] ∧
      ncols [[['a'], ['b']], [['c'], ['d']]] ≠ 1 ∧
      get_data ["[Data]", "a\tb", "c\td"] = Except.ok [[['a'], ['b']], [['c'], ['d']]] :=
  ⟨rfl, by decide,
    (get_data_fallback ["[Data]", "a\tb", "c\td"] [[['a'], ['b']], [['c'], ['d']]] rfl).2
      (by decide)⟩

/-- C8 (amended): with `"Moment (emu)"` present, the classifier returns VSM
when that column is fully non-missing (whatever the other columns hold);
otherwise it consults `"DC Moment Free Ctr (emu)"` — propagating its
`KeyError` when absent — and returns DC when that one is fully non-missing,
the empty classification when not. -/
theorem measurement_type_spec (df : DFrame) (m : List (Option ℚ))
    (hm : getCol df "Moment (emu)" = Except.ok m) :
    (notnaAll m = true → measurement_type df = Except.ok "VSM") ∧
      (notnaAll m = false →
        (∀ e, getCol df "DC Moment Free Ctr (emu)" = Except.error e →
          measurement_type df = Except.error e) ∧
        (∀ d, getCol df "DC Moment Free Ctr (emu)" = Except.ok d →
          measurement_type df = Except.ok (if notnaAll d then "DC" else ""))) := by
  refine ⟨fun hall => ?_, fun hnot => ⟨fun e he => ?_, fun d hd => ?_⟩⟩
  · simp [measurement_type, hm, hall, exceptBindOk, exceptPure]
  · simp [measurement_type, hm, hnot, he, exceptBindOk, exceptBindErr, exceptPure]
  · by_cases hdall : notnaAll d = true <;>
      simp [measurement_type, hm, hnot, hd, hdall, exceptBindOk, exceptPure]

/-- Counterexample to C8's "never raises": a table without a
`"Moment (emu)"` column makes the very first access raise `KeyError`
instead of falling through to the empty classification. -/
theorem measurement_type_missing_column_raises :
    measurement_type [("A", [some (1 : ℚ)])] = Except.error "KeyError" := rfl

/-- Witness for `measurement_type_spec`: a fully populated moment column
classifies VSM regardless of the other columns. -/
theorem measurement_type_spec_witness :
    getCol [("Moment (emu)", [some (1 : ℚ), some 2]), ("X", [none])] "Moment (emu)" =
        Except.ok [some (1 : ℚ), some 2] ∧
      notnaAll [some (1 : ℚ), some 2] = true ∧
      measurement_type [("Moment (emu)", [some (1 : ℚ), some 2]), ("X", [none])] =
        Except.ok "VSM" :=
  ⟨rfl, rfl,
    (measurement_type_spec [("Moment (emu)", [some (1 : ℚ), some 2]), ("X", [none])]
      [some (1 : ℚ), some 2] rfl).1 rfl⟩

theorem rat_min?_eq_some_iff (xs : List ℚ) (a : ℚ) :
    xs.min? = some a ↔ a ∈ xs ∧ ∀ b ∈ xs, a ≤ b :=
  @List.min?_eq_some_iff ℚ a _ _ ⟨fun h1 h2 => le_antisymm h1 h2⟩
    le_refl min_choice (fun _ _ _ => le_min_iff) xs

theorem filterMap_id_map_optionMap (f : ℚ → ℚ) (c : List (Option ℚ)) :
    (c.map (Option.map f)).filterMap id = (c.filterMap id).map f := by
  induction c with
  | nil => rfl
  | cons v t ih => cases v <;> simp [ih]

theorem colMin_subMin (c : List (Option ℚ)) (m : ℚ) (h : colMin c = some m) :
    colMin (c.map (fun v => v.map (fun q => q - m))) = some 0 := by
  unfold colMin at h ⊢
  obtain ⟨hmem, hle⟩ := (rat_min?_eq_some_iff _ _).1 h
  rw [filterMap_id_map_optionMap]
  apply (rat_min?_eq_some_iff _ _).2
  constructor
  · exact List.mem_map.2 ⟨m, hmem, sub_self m⟩
  · intro b hb
    obtain ⟨q, hq, rfl⟩ := List.mem_map.1 hb
    have := hle q hq
    linarith

theorem subMin_eq (c : List (Option ℚ)) (m : ℚ) (h : colMin c = some m) :
    subMin c = c.map (fun v => v.map (fun q => q - m)) := by
  unfold subMin
  rw [h]

/-- C9 (amended): whenever the normalizer succeeds and the raw timestamp
column has at least one non-missing value (its pandas minimum is a number
`m`), the output `time` column is the raw timestamp column minus `m`
(missing cells stay missing), the minimum of the output `time` column is
exactly `0`, and `temp` and `field` are the raw temperature and magnetic
field columns unchanged. -/
theorem simplify_magnetic_df_spec (df out : DFrame) (ts : List (Option ℚ)) (m : ℚ)
    (hts : getCol df "Time Stamp (sec)" = Except.ok ts)
    (hmin : colMin ts = some m)
    (hok : simplify_magnetic_df df = Except.ok out) :
    getCol out "time" = Except.ok (ts.map (fun v => v.map (fun q => q - m))) ∧
      colMin (ts.map (fun v => v.map (fun q => q - m))) = some 0 ∧
      getCol out "temp" = getCol df "Temperature (K)" ∧
      getCol out "field" = getCol df "Magnetic Field (Oe)" := by
  have hsub := subMin_eq ts m hmin
  have hcm := colMin_subMin ts m hmin
  unfold simplify_magnetic_df at hok
  rw [hts, exceptBindOk] at hok
  cases htc : getCol df "Temperature (K)" with
  | error e => rw [htc, exceptBindErr] at hok; exact absurd hok (by simp)
  | ok tc =>
  rw [htc, exceptBindOk] at hok
  cases hfc : getCol df "Magnetic Field (Oe)" with
  | error e => rw [hfc, exceptBindErr] at hok; exact absurd hok (by simp)
  | ok fc =>
  rw [hfc, exceptBindOk] at hok
  cases hmt : measurement_type df with
  | error e => rw [hmt, exceptBindErr] at hok; exact absurd hok (by simp)
  | ok mt =>
  rw [hmt, exceptBindOk] at hok
  by_cases h1 : mt = "VSM"
  · rw [if_pos h1] at hok
    cases hmo : getCol df "Moment (emu)" with
    | error e => rw [hmo, exceptBindErr] at hok; exact absurd hok (by simp)
    | ok mo =>
    rw [hmo, exceptBindOk] at hok
    cases hme : getCol df "M. Std. Err. (emu)" with
    | error e => rw [hme, exceptBindErr] at hok; exact absurd hok (by simp)
    | ok mer =>
    rw [hme, exceptBindOk, exceptPure] at hok
    obtain rfl := Except.ok.inj hok
    refine ⟨by rw [← hsub]; rfl, hcm, by rfl, by rfl⟩
  · rw [if_neg h1] at hok
    by_cases h2 : mt = "DC"
    · rw [if_pos h2] at hok
      cases hmo : getCol df "DC Moment Free Ctr (emu)" with
      | error e => rw [hmo, exceptBindErr] at hok; exact absurd hok (by simp)
      | ok mo =>
      rw [hmo, exceptBindOk] at hok
      cases hme : getCol df "DC Moment Err Free Ctr (emu)" with
      | error e => rw [hme, exceptBindErr] at hok; exact absurd hok (by simp)
      | ok mer =>
      rw [hme, exceptBindOk, exceptPure] at hok
      obtain rfl := Except.ok.inj hok
      refine ⟨by rw [← hsub]; rfl, hcm, by rfl, by rfl⟩
    · rw [if_neg h2, exceptPure] at hok
      obtain rfl := Except.ok.inj hok
      refine ⟨by rw [← hsub]; rfl, hcm, by rfl, by rfl⟩

/-- Counterexample to C9 as stated: a non-empty table whose timestamp column
is entirely missing.  The normalizer succeeds, but the output `time` column
is all-missing and its minimum is `NaN` (`none`), not `0`. -/
theorem simplify_all_nan_time_counterexample :
    simplify_magnetic_df
        [("Time Stamp (sec)", [none]), ("Temperature (K)", [some (300 : ℚ)]),
         ("Magnetic Field (Oe)", [some (0 : ℚ)]), ("Moment (emu)", [some (1 : ℚ)]),
         ("M. Std. Err. (emu)", [some (1 : ℚ)])] =
      Except.ok
        [("time", [none]), ("temp", [some (300 : ℚ)]), ("field", [some (0 : ℚ)]),
         ("moment", [some (1 : ℚ)]), ("moment_err", [some (1 : ℚ)])] ∧
      colMin ([none] : List (Option ℚ)) = none := ⟨rfl, rfl⟩

/-- Witness for `simplify_magnetic_df_spec` at a two-row VSM table whose
timestamps are `[3, 1]` (minimum `1`). -/
theorem simplify_magnetic_df_spec_witness :
    getCol
        [("Time Stamp (sec)", [some (3 : ℚ), some 1]),
         ("Temperature (K)", [some (300 : ℚ), some 301]),
         ("Magnetic Field (Oe)", [some (0 : ℚ), some 0]),
         ("Moment (emu)", [some (1 : ℚ), some 1]),
         ("M. Std. Err. (emu)", [some (2 : ℚ), some 2])] "Time Stamp (sec)" =
      Except.ok [some (3 : ℚ), some 1] ∧
      colMin [some (3 : ℚ), some 1] = some 1 ∧
      (getCol
          [("time", [some (2 : ℚ), some 0]), ("temp", [some (300 : ℚ), some 301]),
           ("field", [some (0 : ℚ), some 0]), ("moment", [some (1 : ℚ), some 1]),
           ("moment_err", [some (2 : ℚ), some 2])] "time" =
        Except.ok ([some (3 : ℚ), some 1].map (fun v => v.map (fun q => q - 1))) ∧
        colMin ([some (3 : ℚ), some 1].map (fun v => v.map (fun q => q - 1))) = some 0 ∧
        getCol
          [("time", [some (2 : ℚ), some 0]), ("temp", [some (300 : ℚ), some 301]),
           ("field", [some (0 : ℚ), some 0]), ("moment", [some (1 : ℚ), some 1]),
           ("moment_err", [some (2 : ℚ), some 2])] "temp" =
          getCol
            [("Time Stamp (sec)", [some (3 : ℚ), some 1]),
             ("Temperature (K)", [some (300 : ℚ), some 301]),
             ("Magnetic Field (Oe)", [some (0 : ℚ), some 0]),
             ("Moment (emu)", [some (1 : ℚ), some 1]),
             ("M. Std. Err. (emu)", [some (2 : ℚ), some 2])] "Temperature (K)" ∧
        getCol
          [("time", [some (2 : ℚ), some 0]), ("temp", [some (300 : ℚ), some 301]),
           ("field", [some (0 : ℚ), some 0]), ("moment", [some (1 : ℚ), some 1]),
           ("moment_err", [some (2 : ℚ), some 2])] "field" =
          getCol
            [("Time Stamp (sec)", [some (3 : ℚ), some 1]),
             ("Temperature (K)", [some (300 : ℚ), some 301]),
             ("Magnetic Field (Oe)", [some (0 : ℚ), some 0]),
             ("Moment (emu)", [some (1 : ℚ), some 1]),
             ("M. Std. Err. (emu)", [some (2 : ℚ), some 2])] "Magnetic Field (Oe)") :=
  ⟨rfl, by with_unfolding_all decide,
    simplify_magnetic_df_spec
      [("Time Stamp (sec)", [some (3 : ℚ), some 1]),
       ("Temperature (K)", [some (300 : ℚ), some 301]),
       ("Magnetic Field (Oe)", [some (0 : ℚ), some 0]),
       ("Moment (emu)", [some (1 : ℚ), some 1]),
       ("M. Std. Err. (emu)", [some (2 : ℚ), some 2])]
      [("time", [some (2 : ℚ), some 0]), ("temp", [some (300 : ℚ), some 301]),
       ("field", [some (0 : ℚ), some 0]), ("moment", [some (1 : ℚ), some 1]),
       ("moment_err", [some (2 : ℚ), some 2])]
      [some (3 : ℚ), some 1] 1 rfl (by with_unfolding_all decide)
      (by with_unfolding_all rfl)⟩

theorem measurement_type_st_frame (df : DFrame) :
    (measurement_type_st df).1 = df ∧ (measurement_type_st df).2 = measurement_type df := by
  unfold measurement_type_st measurement_type readColSt
  cases h1 : getCol df "Moment (emu)" with
  | error e => exact ⟨rfl, rfl⟩
  | ok m =>
    dsimp only
    by_cases hm : notnaAll m = true
    · simp [hm, exceptBindOk, exceptPure]
    · simp only [hm, if_false, exceptBindOk]
      cases h2 : getCol df "DC Moment Free Ctr (emu)" with
      | error e => exact ⟨rfl, rfl⟩
      | ok d =>
        refine ⟨rfl, ?_⟩
        by_cases hd : notnaAll d = true <;> simp [hd, exceptBindOk, exceptPure]

/-- C10: the normalizer only reads its input table.  In the state-passing
translation of the source (where each primitive access returns the table it
worked on and the calls are threaded in source order), the input table that
comes back out of `simplify_magnetic_df_st` is exactly the one passed in, and
its computed result agrees with the direct translation. -/
theorem simplify_magnetic_df_frame (df : DFrame) :
    (simplify_magnetic_df_st df).1 = df ∧
      (simplify_magnetic_df_st df).2 = simplify_magnetic_df df := by
  obtain ⟨hmtS, hmtR⟩ := measurement_type_st_frame df
  unfold simplify_magnetic_df_st simplify_magnetic_df readColSt
  cases h1 : getCol df "Time Stamp (sec)" with
  | error e => exact ⟨rfl, rfl⟩
  | ok ts =>
  dsimp only
  rw [exceptBindOk]
  cases h2 : getCol df "Temperature (K)" with
  | error e => exact ⟨rfl, rfl⟩
  | ok tc =>
  dsimp only
  rw [exceptBindOk]
  cases h3 : getCol df "Magnetic Field (Oe)" with
  | error e => exact ⟨rfl, rfl⟩
  | ok fc =>
  dsimp only
  rw [exceptBindOk]
  cases h4 : measurement_type_st df with
  | mk dfSt res =>
  have hdfSt : dfSt = df := by rw [← hmtS, h4]
  have hres : res = measurement_type df := by rw [← hmtR, h4]
  subst hdfSt
  dsimp only
  cases h5 : res with
  | error e =>
    rw [← hres, h5, exceptBindErr]
    exact ⟨rfl, rfl⟩
  | ok mt =>
  dsimp only
  rw [← hres, h5, exceptBindOk]
  by_cases hv : mt = "VSM"
  · simp only [hv, if_true]
    cases h6 : getCol dfSt "Moment (emu)" with
    | error e => exact ⟨rfl, rfl⟩
    | ok mo =>
    dsimp only
    rw [exceptBindOk]
    cases h7 : getCol dfSt "M. Std. Err. (emu)" with
    | error e => exact ⟨rfl, rfl⟩
    | ok mer =>
    dsimp only
    rw [exceptBindOk, exceptPure]
    exact ⟨rfl, rfl⟩
  · simp only [hv, if_false]
    by_cases hdc : mt = "DC"
    · simp only [hdc, if_true]
      cases h6 : getCol dfSt "DC Moment Free Ctr (emu)" with
      | error e => exact ⟨rfl, rfl⟩
      | ok mo =>
      dsimp only
      rw [exceptBindOk]
      cases h7 : getCol dfSt "DC Moment Err Free Ctr (emu)" with
      | error e => exact ⟨rfl, rfl⟩
      | ok mer =>
      dsimp only
      rw [exceptBindOk, exceptPure]
      exact ⟨rfl, rfl⟩
    · simp [hdc, exceptPure]

end MagnetUtils
